import Mathlib

/-!
Verification development for the Scholar-Tool repository (Semantic Scholar
paper-graph builder).  The definitions below are a shallow embedding of the
Python sources:

* `src/scholar/utils.py` — `request_with_retry`, `sort_papers`,
  `fetch_relations` (pagination, filter, sort);
* `src/utils.py` — the simpler variant whose retry default is 5;
* `src/scholar/graph.py` — `PaperGraph` (`add_node`, `_add_edge`,
  `_get_relations` memoization, `build` BFS, densification, `save`).

Network activity is modelled by explicit oracles (a page oracle for the
paginated fetcher, a fetcher oracle for the cache, a relation oracle for the
BFS).  Machine-independent data (ids, years, counts) are `String`/`Int`/`Nat`.
Presentation attributes computed in the source (node color, log-scaled size,
edge color/width) are pure visual styling with no effect on graph structure
and are omitted from the model; the structural payload (id, layer, edge
endpoints, the influential flag that selects the styling) is kept.
-/

namespace Scholar

/-- Related-publication record nested in an API relation entry
(`citedPaper`/`citingPaper` in the JSON): fields are optional exactly as in
the JSON dictionaries the Python code reads with `.get`. -/
structure Paper where
  paperId : Option String
  title : Option String
  year : Option Int
  citationCount : Option Int
deriving DecidableEq

/-- One raw relation entry as returned by the relation endpoint: the
`isInfluential` flag plus the nested related-publication dictionary (which can
be absent, as the Python code guards with `x.get(paper_key) or {}`).  The
`citingPaper` / `citedPaper` field name chosen by `relation_type` is abstracted
into the single `paper` field. -/
structure Entry where
  isInfluential : Bool
  paper : Option Paper
deriving DecidableEq

/-- Python truthiness of an optional integer: `None` and `0` are falsy.  Used
to model `if since_year ...` / `if not year ...` in `passes_filter`. -/
def truthyInt : Option Int → Bool
  | none => false
  | some n => decide (n ≠ 0)

/-- The empty dictionary that `x.get(paper_key) or {}` substitutes for a
missing related-publication record. -/
def emptyPaper : Paper := ⟨none, none, none, none⟩

/-- The `dims` dictionary of `sort_papers.key_fn` (scholar/utils.py):
citation count (missing/null treated as 0), influential flag (Python bool,
compared as an integer), year (missing/null treated as 0). -/
def dims (x : Entry) (k : String) : Int :=
  let p := x.paper.getD emptyPaper
  if k = "citation" then p.citationCount.getD 0
  else if k = "influential" then (if x.isInfluential then 1 else 0)
  else p.year.getD 0

/-- The comparison-key order built by `sort_papers.key_fn`: the default order
`[citation, influential, year]`, with `strategy` moved to the front when it is
one of the three (Python `order.remove(strategy); order.insert(0, strategy)`). -/
def keyOrder (strategy : String) : List String :=
  let order := ["citation", "influential", "year"]
  if strategy ∈ order then strategy :: order.erase strategy else order

/-- The tuple key `key_fn(x)` of `sort_papers`, as a list of integers compared
lexicographically (Python tuple comparison; `True`/`False` compare as 1/0). -/
def sortKey (strategy : String) (x : Entry) : List Int :=
  (keyOrder strategy).map (dims x)

/-- Lexicographic `≤` on integer lists, mirroring Python tuple comparison
(all keys built here have equal length, so the length-mismatch cases are
inert). -/
def lexLe : List Int → List Int → Bool
  | [], _ => true
  | _ :: _, [] => false
  | a :: as, b :: bs => if a < b then true else if b < a then false else lexLe as bs

/-- Stable insertion of `a` into a list: `a` goes in front of the first
element it may precede. -/
def stableInsert (le : α → α → Bool) (a : α) : List α → List α
  | [] => [a]
  | b :: bs => if le a b then a :: b :: bs else b :: stableInsert le a bs

/-- Stable sort: `le a b` means `a` may be placed before `b`.  Elements
equivalent under `le` keep their input order, exactly the guarantee Python's
`list.sort` documents. -/
def stableSort (le : α → α → Bool) : List α → List α
  | [] => []
  | a :: as => stableInsert le a (stableSort le as)

/-- `sort_papers(papers, paper_key, strategy)` (scholar/utils.py): a stable
descending sort by the rotated key tuple.  Python's `list.sort(key, reverse
=True)` is a stable sort that places `a` before `b` exactly when
`key(b) <= key(a)` lexicographically, which is the relation used here. -/
def sortPapers (papers : List Entry) (strategy : String) : List Entry :=
  stableSort (fun a b => lexLe (sortKey strategy b) (sortKey strategy a)) papers

/-- `passes_filter` inside `fetch_relations` (scholar/utils.py), including the
Python truthiness of the year bounds (`if since_year and ...`) and of the
entry's year (`not year`). -/
def passesFilter (influentialOnly : Bool) (sinceYear untilYear : Option Int)
    (x : Entry) : Bool :=
  if influentialOnly && !x.isInfluential then false
  else
    let year := x.paper.bind Paper.year
    if truthyInt sinceYear &&
        (!truthyInt year || decide (year.getD 0 < sinceYear.getD 0)) then false
    else if truthyInt untilYear &&
        (!truthyInt year || decide (year.getD 0 > untilYear.getD 0)) then false
    else true

/-- The page size hard-coded in the pagination request (`"limit": 1000`). -/
def pageSize : Nat := 1000

/-- The pagination loop of `fetch_relations` (scholar/utils.py).  `pages k` is
the outcome of the page request at offset `1000*k`: `none` models a failed
request or a response without usable data (`batch = data.get("data") if data
else None`), and `some []`, like `none`, fails the `if not batch` check and
breaks.  The loop runs while the accumulated count is below `fetchLimit`,
appends the batch, and stops after a batch shorter than `pageSize`.  `fuel`
bounds the recursion; every continuing iteration appends at least `pageSize`
entries, so `fetchLimit + 1` fuel is never exhausted. -/
def fetchPagesAux (pages : Nat → Option (List Entry)) (fetchLimit : Nat) :
    Nat → Nat → List Entry → List Entry
  | 0, _, acc => acc
  | fuel + 1, k, acc =>
    if acc.length < fetchLimit then
      match pages k with
      | none => acc
      | some [] => acc
      | some batch =>
        if batch.length < pageSize then acc ++ batch
        else fetchPagesAux pages fetchLimit fuel (k + 1) (acc ++ batch)
    else acc

/-- `fetch_relations` (scholar/utils.py): paginated retrieval, then filter,
then sort, then the `[:num_results]` truncation (`none` = Python `None`, no
truncation — the graph-building caller passes `None`). -/
def fetchRelations (pages : Nat → Option (List Entry)) (sortBy : String)
    (influentialOnly : Bool) (sinceYear untilYear : Option Int)
    (numResults : Option Nat) (fetchLimit : Nat) : List Entry :=
  let raw := fetchPagesAux pages fetchLimit (fetchLimit + 1) 0 []
  let filtered := raw.filter (passesFilter influentialOnly sinceYear untilYear)
  let sorted := sortPapers filtered sortBy
  match numResults with
  | none => sorted
  | some n => sorted.take n

/-- Outcome of one HTTP GET attempt in `request_with_retry`: success with a
JSON payload (abstracted to a number), HTTP 429, any other non-success status,
or a transport-level `requests.RequestException`. -/
inductive HttpResp where
  | ok (body : Nat)
  | rateLimited
  | otherStatus (code : Nat)
  | transportFault
deriving DecidableEq

/-- The retry loop of `request_with_retry`: `i` is the current attempt index,
the second argument the remaining iterations of `for i in range(max_retries)`,
and the list accumulates the sleeps `(i + 1) * 3` performed on 429.  Returns
the payload (`none` on failure or budget exhaustion) together with the sleeps. -/
def requestAux (responses : Nat → HttpResp) :
    Nat → Nat → List Nat → Option Nat × List Nat
  | _, 0, waits => (none, waits)
  | i, r + 1, waits =>
    match responses i with
    | .ok b => (some b, waits)
    | .rateLimited => requestAux responses (i + 1) r (waits ++ [(i + 1) * 3])
    | .otherStatus _ => (none, waits)
    | .transportFault => (none, waits)

/-- `request_with_retry(url, params, max_retries)`: `responses i` is the
outcome of attempt `i` against the modelled endpoint. -/
def requestWithRetry (responses : Nat → HttpResp) (maxRetries : Nat) :
    Option Nat × List Nat :=
  requestAux responses 0 maxRetries []

/-- Retry budget of the graph-building caller: `max_retries=10`, the default
in `scholar/utils.py`, used by `scholar/graph.py` and `scholar/relation.py`. -/
def graphCallerRetries : Nat := 10

/-- Retry budget of the simpler relation-lookup caller: `max_retries=5`, the
default in `src/utils.py`, used by `src/main.py`. -/
def lookupCallerRetries : Nat := 5

/-- The full argument tuple of `PaperGraph._get_relations` (graph.py): all six
query components, including the fetch-limit ceiling. -/
structure RelQuery where
  paperId : String
  relationType : String
  influentialOnly : Bool
  sinceYear : Option Int
  untilYear : Option Int
  fetchLimit : Nat
deriving DecidableEq

/-- The cache key actually built by `_get_relations`:
`(paper_id, relation_type, influential_only, since_year, until_year)` —
five components; `fetch_limit` is not part of the tuple. -/
structure CacheKey where
  paperId : String
  relationType : String
  influentialOnly : Bool
  sinceYear : Option Int
  untilYear : Option Int
deriving DecidableEq

/-- The key `_get_relations` derives from a query. -/
def cacheKeyOf (q : RelQuery) : CacheKey :=
  ⟨q.paperId, q.relationType, q.influentialOnly, q.sinceYear, q.untilYear⟩

/-- The cache value: `[(item.get(key), item.get("isInfluential", False)), ...]`. -/
def RelRecord := List (Option Paper × Bool)
deriving DecidableEq

/-- The memoization dictionary `self._cache`, as an association list (the code
inserts a key at most once, on a miss). -/
def Cache := List (CacheKey × RelRecord)

/-- `PaperGraph._get_relations` with the network abstracted to a pure
`fetcher` (in the code, `fetch_relations` with `sort_by="citation"` and no
`num_results` truncation).  Returns the record, the updated cache, and the
number of fetcher invocations (0 on a hit, 1 on a miss). -/
def getRelations (fetcher : RelQuery → List Entry) (cache : Cache)
    (q : RelQuery) : RelRecord × Cache × Nat :=
  match List.lookup (cacheKeyOf q) cache with
  | some v => (v, cache, 0)
  | none =>
    ((fetcher q).map fun it => (it.paper, it.isInfluential),
     (cacheKeyOf q, (fetcher q).map fun it => (it.paper, it.isInfluential)) :: cache,
     1)

/-- A sequence of `_get_relations` calls against one builder instance:
returns, per call, the record and the fetcher-invocation count, plus the final
cache. -/
def runCalls (fetcher : RelQuery → List Entry) (cache : Cache) :
    List RelQuery → List (RelRecord × Nat) × Cache
  | [] => ([], cache)
  | q :: qs =>
    let out := getRelations fetcher cache q
    let rest := runCalls fetcher out.2.1 qs
    ((out.1, out.2.2) :: rest.1, rest.2)

/-- The directed graph held in `self.G` (NetworkX `DiGraph`): nodes in
insertion order as `(paperId, layer)` — the layer is the structural residue of
the presentation attributes `add_node` derives from it — and edges in
insertion order as `(source, target, isInfluential)`. -/
structure Graph where
  nodes : List (String × Nat)
  edges : List (String × String × Bool)
deriving DecidableEq

/-- The node ids of the graph, in insertion order. -/
def Graph.nodeIds (g : Graph) : List String := g.nodes.map Prod.fst

/-- `self.G.has_node(pid)`. -/
def Graph.hasNode (g : Graph) (pid : String) : Bool := g.nodeIds.contains pid

/-- The ordered pairs of the edge set. -/
def Graph.edgePairs (g : Graph) : List (String × String) :=
  g.edges.map fun e => (e.1, e.2.1)

/-- `self.G.has_edge(source, target)`. -/
def Graph.hasEdge (g : Graph) (s t : String) : Bool := g.edgePairs.contains (s, t)

/-- The empty graph a fresh `PaperGraph` starts with. -/
def emptyGraph : Graph := ⟨[], []⟩

/-- `PaperGraph.add_node(paper_info, layer)`: no-op when the record is absent
or its `paperId` is missing or falsy (the empty string); no-op when the node
already exists (first discovery wins — the layer-derived styling is fixed
then); otherwise appends the node at the given layer. -/
def addNode (g : Graph) (info : Option Paper) (layer : Nat) : Graph :=
  match info with
  | none => g
  | some p =>
    match p.paperId with
    | none => g
    | some pid =>
      if pid = "" then g
      else if g.hasNode pid then g
      else { g with nodes := g.nodes ++ [(pid, layer)] }

/-- `PaperGraph._add_edge(source, target, is_influential)`: no-op unless both
endpoints are present as nodes; no-op when the ordered pair already has an
edge; otherwise appends the styled directed edge. -/
def addEdge (g : Graph) (source target : String) (isInf : Bool) : Graph :=
  if !g.hasNode source || !g.hasNode target then g
  else if g.hasEdge source target then g
  else { g with edges := g.edges ++ [(source, target, isInf)] }

/-- Mutable state of `PaperGraph.build`: the graph, the visited set (insertion
order kept), and the FIFO queue of `(paperId, depth)` pairs. -/
structure BuildState where
  graph : Graph
  visited : List String
  queue : List (String × Nat)
deriving DecidableEq

/-- The fresh state of a new `PaperGraph` instance. -/
def emptyState : BuildState := ⟨emptyGraph, [], []⟩

/-- The cached relation lists the builder sees: `oracle pid m` is the record
`_get_relations(pid, m, ...)` returns for the build's fixed filter arguments.
Memoization (modelled separately by `getRelations`) makes this a function of
`(pid, m)` for the duration of one build. -/
def RelOracle := String → String → List (Option Paper × Bool)

/-- The direction set of `build`: both directions in mode `"all"`, otherwise
the mode itself. -/
def directions (mode : String) : List String :=
  if mode = "all" then ["references", "citations"] else [mode]

/-- `widths[min(current_depth, len(widths) - 1)]`: the per-level branching
width, reusing the last value beyond the end of the list.  (On an empty widths
list Python raises; the model returns 0, expanding nothing.) -/
def curWidth (widths : List Nat) (depth : Nat) : Nat :=
  widths.getD (min depth (widths.length - 1)) 0

/-- The body of the inner `for p_info, is_influential in items` loop of
`build`: skip entries with no record or no (truthy) id; add the node at layer
`d + 1`; add the edge per the direction convention; on first sight of the id,
mark it visited and enqueue it at depth `d + 1` when that is still below the
depth ceiling. -/
def processItem (dmax : Nat) (m : String) (cur : String) (d : Nat)
    (st : BuildState) (item : Option Paper × Bool) : BuildState :=
  match item.1 with
  | none => st
  | some p =>
    match p.paperId with
    | none => st
    | some tid =>
      if tid = "" then st
      else
        let g1 := addNode st.graph (some p) (d + 1)
        let g2 := if m = "references" then addEdge g1 cur tid item.2
                  else addEdge g1 tid cur item.2
        if st.visited.contains tid then { st with graph := g2 }
        else
          { graph := g2
            visited := st.visited ++ [tid]
            queue := if d + 1 < dmax then st.queue ++ [(tid, d + 1)] else st.queue }

/-- One direction of one dequeued node: truncate the cached record to the
current width, drop entries with an absent record (`if info`), and process the
survivors in order. -/
def expandDirection (oracle : RelOracle) (dmax : Nat) (widths : List Nat)
    (cur : String) (d : Nat) (st : BuildState) (m : String) : BuildState :=
  let items := ((oracle cur m).take (curWidth widths d)).filter fun it => it.1.isSome
  items.foldl (processItem dmax m cur d) st

/-- All active directions of one dequeued node. -/
def processNode (oracle : RelOracle) (mode : String) (dmax : Nat)
    (widths : List Nat) (st : BuildState) (cur : String) (d : Nat) : BuildState :=
  (directions mode).foldl (expandDirection oracle dmax widths cur d) st

/-- One iteration of the BFS `while queue:` loop: pop the front; skip
expansion entirely when the dequeued depth has reached the ceiling
(`if current_depth >= depth: continue`). -/
def bfsStep (oracle : RelOracle) (mode : String) (dmax : Nat)
    (widths : List Nat) (st : BuildState) : BuildState :=
  match st.queue with
  | [] => st
  | (cur, d) :: rest =>
    let st' : BuildState := { st with queue := rest }
    if dmax ≤ d then st'
    else processNode oracle mode dmax widths st' cur d

/-- The BFS loop, fuelled: runs `bfsStep` until the queue empties or the fuel
runs out (the claims proved below are invariants that hold for every fuel). -/
def bfsRun (oracle : RelOracle) (mode : String) (dmax : Nat)
    (widths : List Nat) : Nat → BuildState → BuildState
  | 0, st => st
  | fuel + 1, st =>
    match st.queue with
    | [] => st
    | _ :: _ => bfsRun oracle mode dmax widths fuel (bfsStep oracle mode dmax widths st)

/-- The inner loop of the densification pass for one node `pid`: walk the full
(un-truncated) cached references record and add an edge to every related id
already in the node-id snapshot `ids` (`if ref_id in nodes`). -/
def densifyNode (oracle : RelOracle) (ids : List String) (g : Graph)
    (pid : String) : Graph :=
  (oracle pid "references").foldl
    (fun g2 it =>
      match it.1.bind Paper.paperId with
      | none => g2
      | some rid => if ids.contains rid then addEdge g2 pid rid it.2 else g2)
    g

/-- The densification pass of `build`: snapshot the node ids, then complete
internal reference edges among them.  (Python iterates `set(self.G.nodes())`
in unspecified order; the model uses insertion order — the properties proved
about the pass are order-independent.) -/
def densify (oracle : RelOracle) (g : Graph) : Graph :=
  let ids := g.nodeIds
  ids.foldl (densifyNode oracle ids) g

/-- `PaperGraph.build`, end to end: `searchTitleResult` is the id
`search_paper` resolves (or `none`), `rootData` the seed-details response (or
`none`) — either absence returns with the state untouched.  Otherwise: seed
node at layer 0, visited/queue seeded with the root id, BFS, densification. -/
def build (searchTitleResult : Option String) (rootData : Option Paper)
    (oracle : RelOracle) (mode : String) (dmax : Nat) (widths : List Nat)
    (fuel : Nat) : BuildState :=
  match searchTitleResult with
  | none => emptyState
  | some rootId =>
    match rootData with
    | none => emptyState
    | some rd =>
      let g0 := addNode emptyGraph (some rd) 0
      let st0 : BuildState := ⟨g0, [rootId], [(rootId, 0)]⟩
      let st1 := bfsRun oracle mode dmax widths fuel st0
      { st1 with graph := densify oracle st1.graph }

/-- `PaperGraph.save`: an empty graph is reported and no file is written
(`none`); otherwise the rendered artifact is produced (modelled as the graph
itself — the HTML rendering is a collaborator outside the model). -/
def saveOutput (g : Graph) : Option Graph :=
  if g.nodes.length = 0 then none else some g

/-- Well-formedness invariant of the graph: a directed simple graph whose
edges stay inside the node set — node ids pairwise distinct, ordered edge
pairs pairwise distinct, both endpoints of every edge present as nodes. -/
def Graph.WF (g : Graph) : Prop :=
  g.nodeIds.Nodup ∧ g.edgePairs.Nodup ∧
    ∀ e ∈ g.edges, e.1 ∈ g.nodeIds ∧ e.2.1 ∈ g.nodeIds

/-- The node list only ever grows by appending: existing nodes (and hence
their once-assigned layers) are never removed or overwritten. -/
def nodesExt (g g' : Graph) : Prop := ∃ t, g'.nodes = g.nodes ++ t

/-- What the densification pass may do to a graph: leave the node list
untouched and append edges, each of which runs between node ids that were
already present and whose ordered pair was not yet an edge, with no ordered
pair appended twice. -/
def densifyExt (g h : Graph) : Prop :=
  h.nodes = g.nodes ∧
  ∃ t, h.edges = g.edges ++ t ∧
    (∀ e ∈ t, e.1 ∈ g.nodeIds ∧ e.2.1 ∈ g.nodeIds ∧ (e.1, e.2.1) ∉ g.edgePairs) ∧
    (t.map fun e => (e.1, e.2.1)).Nodup

/-- The filter predicate exactly as claim C6 words it: an entry is kept iff it
passes the influential-only flag (when set) and, for each year bound that is
set (`some`), its year is known and inside the inclusive window.  Written for
comparison with `passesFilter`, which is the code's predicate. -/
def claimedFilterKeep (influentialOnly : Bool) (sinceYear untilYear : Option Int)
    (x : Entry) : Bool :=
  (!influentialOnly || x.isInfluential) &&
  (match sinceYear, x.paper.bind Paper.year with
   | none, _ => true
   | some _, none => false
   | some s, some y => decide (s ≤ y)) &&
  (match untilYear, x.paper.bind Paper.year with
   | none, _ => true
   | some _, none => false
   | some u, some y => decide (y ≤ u))

/-- The filter predicate with claim C6's wording amended for Python
truthiness: a year bound set to `0` is ignored, and a year equal to `0`
counts as unknown. -/
def amendedFilterKeep (influentialOnly : Bool) (sinceYear untilYear : Option Int)
    (x : Entry) : Bool :=
  let year := x.paper.bind Paper.year
  (!influentialOnly || x.isInfluential) &&
  (!truthyInt sinceYear || (truthyInt year && decide (sinceYear.getD 0 ≤ year.getD 0))) &&
  (!truthyInt untilYear || (truthyInt year && decide (year.getD 0 ≤ untilYear.getD 0)))

/-- Concrete page oracle used to instantiate the pagination lemmas: page 0
holds one entry, later pages fail. -/
def c8PagesW : Nat → Option (List Entry) :=
  fun k => if k = 0 then some [⟨false, none⟩] else none

/-- Concrete fetcher whose answer depends on the fetch-limit ceiling (as the
real paginated retrieval does): a ceiling of 1 yields one entry, any other
ceiling two. -/
def c9Fetcher : RelQuery → List Entry :=
  fun q =>
    if q.fetchLimit = 1 then [⟨false, some ⟨some "a", none, none, some 5⟩⟩]
    else [⟨false, some ⟨some "a", none, none, some 5⟩⟩,
          ⟨true, some ⟨some "b", none, none, some 9⟩⟩]

/-- Concrete query with the default fetch-limit ceiling 10000. -/
def c9Query1 : RelQuery := ⟨"p", "references", false, none, none, 10000⟩

/-- The same query with fetch-limit ceiling 1: identical in the five cached
components, different in the sixth. -/
def c9Query2 : RelQuery := ⟨"p", "references", false, none, none, 1⟩

end Scholar

namespace Scholar

/- ### Generic fold and stable-sort lemmas -/

/-- A property preserved by every step of a left fold holds of the result. -/
theorem foldl_preserve {α β : Type} {P : β → Prop} (f : β → α → β)
    (h : ∀ b a, P b → P (f b a)) :
    ∀ (l : List α) (b : β), P b → P (l.foldl f b)
  | [], _, hb => hb
  | a :: l, b, hb => foldl_preserve f h l (f b a) (h b a hb)

/-- A reflexive transitive relation that relates every fold step's input to
its output relates the fold's input to its result. -/
theorem foldl_rel {α β : Type} (R : β → β → Prop) (hrefl : ∀ b, R b b)
    (htrans : ∀ a b c, R a b → R b c → R a c)
    (f : β → α → β) (h : ∀ b a, R b (f b a)) :
    ∀ (l : List α) (b : β), R b (l.foldl f b)
  | [], b => hrefl b
  | a :: l, b => htrans _ _ _ (h b a) (foldl_rel R hrefl htrans f h l (f b a))

theorem stableInsert_perm {α : Type} (le : α → α → Bool) (a : α) :
    ∀ l : List α, (stableInsert le a l).Perm (a :: l)
  | [] => List.Perm.refl _
  | b :: bs => by
    unfold stableInsert
    by_cases h : le a b = true
    · simp [h]
    · simp only [h, if_false]
      exact ((stableInsert_perm le a bs).cons b).trans (List.Perm.swap a b bs)

theorem stableSort_perm {α : Type} (le : α → α → Bool) :
    ∀ l : List α, (stableSort le l).Perm l
  | [] => List.Perm.refl _
  | a :: as =>
    (stableInsert_perm le a (stableSort le as)).trans
      ((stableSort_perm le as).cons a)

theorem mem_stableInsert {α : Type} (le : α → α → Bool) (a : α) (l : List α)
    (x : α) (hx : x ∈ stableInsert le a l) : x = a ∨ x ∈ l :=
  (List.mem_cons).mp ((stableInsert_perm le a l).mem_iff.mp hx)

theorem pairwise_stableInsert {α : Type} (le : α → α → Bool)
    (total : ∀ x y, le x y = true ∨ le y x = true)
    (htrans : ∀ x y z, le x y = true → le y z = true → le x z = true) (a : α) :
    ∀ l : List α, l.Pairwise (fun x y => le x y = true) →
      (stableInsert le a l).Pairwise (fun x y => le x y = true)
  | [], _ => by simp [stableInsert]
  | b :: bs, hl => by
    unfold stableInsert
    rcases List.pairwise_cons.mp hl with ⟨hb, hbs⟩
    by_cases h : le a b = true
    · simp only [h, if_true]
      refine List.pairwise_cons.mpr ⟨?_, hl⟩
      intro x hx
      rcases List.mem_cons.mp hx with rfl | hx
      · exact h
      · exact htrans a b x h (hb x hx)
    · simp only [h, if_false]
      refine List.pairwise_cons.mpr ⟨?_, pairwise_stableInsert le total htrans a bs hbs⟩
      intro x hx
      rcases mem_stableInsert le a bs x hx with rfl | hx
      · rcases total x b with h2 | h2
        · exact absurd h2 h
        · exact h2
      · exact hb x hx

theorem pairwise_stableSort {α : Type} (le : α → α → Bool)
    (total : ∀ x y, le x y = true ∨ le y x = true)
    (htrans : ∀ x y z, le x y = true → le y z = true → le x z = true) :
    ∀ l : List α, (stableSort le l).Pairwise (fun x y => le x y = true)
  | [] => List.Pairwise.nil
  | a :: as =>
    pairwise_stableInsert le total htrans a (stableSort le as)
      (pairwise_stableSort le total htrans as)

theorem lexLe_total : ∀ u v : List Int, lexLe u v = true ∨ lexLe v u = true
  | [], _ => Or.inl rfl
  | _ :: _, [] => Or.inr rfl
  | a :: as, b :: bs => by
    unfold lexLe
    rcases lt_trichotomy a b with h | h | h
    · left; simp [h]
    · subst h
      simpa [lt_irrefl] using lexLe_total as bs
    · right; simp [h]

theorem lexLe_trans : ∀ u v w : List Int,
    lexLe u v = true → lexLe v w = true → lexLe u w = true
  | [], _, _, _, _ => rfl
  | _ :: _, [], _, h1, _ => by simp [lexLe] at h1
  | _ :: _, _ :: _, [], _, h2 => by simp [lexLe] at h2
  | a :: as, b :: bs, c :: cs, h1, h2 => by
    unfold lexLe at h1 h2 ⊢
    rcases lt_trichotomy a b with hab | hab | hab
    · rcases lt_trichotomy b c with hbc | hbc | hbc
      · simp [show a < c from hab.trans hbc]
      · subst hbc; simp [hab]
      · simp [hab, lt_asymm hab, not_lt_of_gt hab] at h1 ⊢
        simp [hbc, lt_asymm hbc, not_lt_of_gt hbc] at h2
    · subst hab
      rcases lt_trichotomy a c with hac | hac | hac
      · simp [hac]
      · subst hac
        simp [lt_irrefl] at h1 h2 ⊢
        exact lexLe_trans as bs cs h1 h2
      · simp [lt_asymm hac, hac] at h2
    · simp [lt_asymm hab, hab] at h1

/- ### Claim C5 — multi-key descending sort -/

/-- C5: for every input list and every primary key among citation,
influential, year, `sort_papers` returns a permutation of its input that is
ordered descending by the key tuple whose first component is the chosen
primary dimension and whose remaining components are the other two dimensions
in the fixed fallback order (citation, then influential, then year); the sort
is a pure function of the input and the strategy, hence deterministic. -/
theorem sort_papers_multikey_descending (l : List Entry) (s : String) :
    (sortPapers l s).Perm l ∧
    (sortPapers l s).Pairwise (fun a b => lexLe (sortKey s b) (sortKey s a) = true) ∧
    (s = "citation" →
      ∀ x, sortKey s x = [dims x "citation", dims x "influential", dims x "year"]) ∧
    (s = "influential" →
      ∀ x, sortKey s x = [dims x "influential", dims x "citation", dims x "year"]) ∧
    (s = "year" →
      ∀ x, sortKey s x = [dims x "year", dims x "citation", dims x "influential"]) := by
  refine ⟨stableSort_perm _ l, ?_, ?_, ?_, ?_⟩
  · exact pairwise_stableSort
      (fun a b => lexLe (sortKey s b) (sortKey s a))
      (fun x y => lexLe_total (sortKey s y) (sortKey s x))
      (fun x y z h1 h2 => lexLe_trans _ _ _ h2 h1) l
  · rintro rfl x; rfl
  · rintro rfl x; rfl
  · rintro rfl x; rfl

/-- Witness for C5 at a concrete input: a two-entry list with primary key
"citation". -/
theorem sort_papers_multikey_descending_witness :
    (sortPapers [⟨false, some ⟨some "a", none, some 2020, some 5⟩⟩,
                 ⟨true, some ⟨some "b", none, some 2019, some 9⟩⟩] "citation").Perm
      [⟨false, some ⟨some "a", none, some 2020, some 5⟩⟩,
       ⟨true, some ⟨some "b", none, some 2019, some 9⟩⟩] ∧
    sortKey "citation" ⟨false, some ⟨some "a", none, some 2020, some 5⟩⟩ =
      [dims ⟨false, some ⟨some "a", none, some 2020, some 5⟩⟩ "citation",
       dims ⟨false, some ⟨some "a", none, some 2020, some 5⟩⟩ "influential",
       dims ⟨false, some ⟨some "a", none, some 2020, some 5⟩⟩ "year"] :=
  ⟨(sort_papers_multikey_descending _ "citation").1,
   (sort_papers_multikey_descending [] "citation").2.2.1 rfl _⟩

/- ### Claim C6 — filter step (corrected for Python truthiness) -/

/-- Counterexample to C6 as stated: with the since-year bound set to `0` and
an entry whose year is unknown, the code keeps the entry (Python `if
since_year` treats the bound `0` as unset), while the claim says an entry with
unknown year is dropped whenever any year bound is set. -/
theorem filter_claim_counterexample :
    passesFilter false (some 0) none ⟨false, some ⟨some "a", none, none, some 3⟩⟩ = true ∧
    claimedFilterKeep false (some 0) none ⟨false, some ⟨some "a", none, none, some 3⟩⟩ = false := by
  decide

/-- C6 amended: the filter keeps an entry iff it passes the influential-only
flag (when set) and, for each year bound that is set *to a nonzero year*, its
year is known *and nonzero* and lies inside the inclusive window (a bound set
to `0` is ignored and a year `0` counts as unknown, per Python truthiness). -/
theorem filter_keeps_iff_amended (io : Bool) (sy uy : Option Int) (x : Entry) :
    passesFilter io sy uy x = amendedFilterKeep io sy uy x := by
  rw [Bool.eq_iff_iff]
  unfold passesFilter amendedFilterKeep
  rcases hy : x.paper.bind Paper.year with _ | yv <;>
    rcases sy with _ | sv <;> rcases uy with _ | uv <;>
      cases io <;> cases hinf : x.isInfluential <;>
        simp only [truthyInt, hy, hinf] <;>
          split_ifs <;>
            simp_all <;> omega

/-- Witness for C6 amended at a concrete input (the amended statement has no
hypotheses beyond its binders; this instantiates it at one input). -/
theorem filter_keeps_iff_amended_witness :
    passesFilter true (some 2019) (some 2021)
        ⟨true, some ⟨some "a", none, some 2020, some 3⟩⟩ =
      amendedFilterKeep true (some 2019) (some 2021)
        ⟨true, some ⟨some "a", none, some 2020, some 3⟩⟩ :=
  filter_keeps_iff_amended true (some 2019) (some 2021) _

/- ### Claim C7 — retry behavior of request_with_retry -/

/-- Unrolling of the retry loop across a run of 429 responses: `k` consecutive
rate-limited attempts starting at attempt `i` consume `k` iterations and
append the sleeps `(i+1)*3, ..., (i+k)*3`. -/
theorem requestAux_rateLimited_run (responses : Nat → HttpResp) :
    ∀ (k i r : Nat) (waits : List Nat),
      (∀ j, j < k → responses (i + j) = .rateLimited) → k ≤ r →
      requestAux responses i r waits =
        requestAux responses (i + k) (r - k)
          (waits ++ (List.range k).map fun j => (i + j + 1) * 3)
  | 0, i, r, waits, _, _ => by simp
  | k + 1, i, r, waits, h429, hkr => by
    obtain ⟨r', rfl⟩ : ∃ r', r = r' + 1 := ⟨r - 1, by omega⟩
    have h0 : responses i = .rateLimited := by simpa using h429 0 (Nat.succ_pos k)
    have step : requestAux responses i (r' + 1) waits =
        requestAux responses (i + 1) r' (waits ++ [(i + 1) * 3]) := by
      simp only [requestAux, h0]
    have e3 : (waits ++ [(i + 1) * 3]) ++
        (List.range k).map (fun j => (i + 1 + j + 1) * 3) =
        waits ++ (List.range (k + 1)).map fun j => (i + j + 1) * 3 := by
      rw [List.append_assoc, List.range_succ_eq_map, List.map_cons, List.map_map]
      refine congrArg (waits ++ ·) (congrArg₂ (· :: ·) (by omega) ?_)
      apply List.map_congr_left
      intro j _
      simp only [Function.comp]
      omega
    have e1 : i + 1 + k = i + (k + 1) := by omega
    have e2 : r' - k = r' + 1 - (k + 1) := by omega
    rw [step,
      requestAux_rateLimited_run responses k (i + 1) r' (waits ++ [(i + 1) * 3])
        (fun j hj => by
          have := h429 (j + 1) (by omega)
          simpa [Nat.add_comm, Nat.add_assoc, Nat.add_left_comm] using this)
        (by omega),
      e3, e1, e2]

/-- C7: the fetcher retries only on HTTP 429, sleeping `(i+1)*3` seconds after
the 429 at attempt `i`; a success after `k` rate-limited attempts (within the
budget) returns the payload with sleeps `3, 6, ..., 3k`; exhausting the budget
on 429s returns the failure value `none`, not an exception; any other
non-success status or a transport fault returns `none` immediately with no
sleeps.  The graph-building caller's budget is 10 attempts, the simpler
relation-lookup caller's is 5. -/
theorem request_with_retry_behavior (responses : Nat → HttpResp)
    (maxRetries k b code : Nat) :
    ((∀ j, j < k → responses j = .rateLimited) → responses k = .ok b →
      k < maxRetries →
      requestWithRetry responses maxRetries =
        (some b, (List.range k).map fun j => (j + 1) * 3)) ∧
    ((∀ j, j < maxRetries → responses j = .rateLimited) →
      requestWithRetry responses maxRetries =
        (none, (List.range maxRetries).map fun j => (j + 1) * 3)) ∧
    (responses 0 = .otherStatus code → 0 < maxRetries →
      requestWithRetry responses maxRetries = (none, [])) ∧
    (responses 0 = .transportFault → 0 < maxRetries →
      requestWithRetry responses maxRetries = (none, [])) ∧
    graphCallerRetries = 10 ∧ lookupCallerRetries = 5 := by
  refine ⟨?_, ?_, ?_, ?_, rfl, rfl⟩
  · intro h429 hok hk
    unfold requestWithRetry
    rw [requestAux_rateLimited_run responses k 0 maxRetries []
      (fun j hj => by simpa using h429 j hj) (Nat.le_of_lt hk)]
    obtain ⟨d, hd⟩ : ∃ d, maxRetries - k = d + 1 := ⟨maxRetries - k - 1, by omega⟩
    rw [hd]
    unfold requestAux
    rw [show (0 : Nat) + k = k from Nat.zero_add k, hok]
    simp
  · intro h429
    unfold requestWithRetry
    rw [requestAux_rateLimited_run responses maxRetries 0 maxRetries []
      (fun j hj => by simpa using h429 j hj) (Nat.le_refl _)]
    simp [requestAux]
  · intro hother hpos
    obtain ⟨d, rfl⟩ : ∃ d, maxRetries = d + 1 := ⟨maxRetries - 1, by omega⟩
    unfold requestWithRetry requestAux
    rw [hother]
  · intro hfault hpos
    obtain ⟨d, rfl⟩ : ∃ d, maxRetries = d + 1 := ⟨maxRetries - 1, by omega⟩
    unfold requestWithRetry requestAux
    rw [hfault]

/-- Witness for C7: three 429s then success (budget 10) gives sleeps 3, 6, 9
and the payload; an immediate HTTP 500 (budget 5) fails at once with no
sleeps. -/
theorem request_with_retry_behavior_witness :
    requestWithRetry (fun j => if j < 3 then .rateLimited else .ok 7)
        graphCallerRetries =
      (some 7, (List.range 3).map fun j => (j + 1) * 3) ∧
    requestWithRetry (fun _ => .otherStatus 500) lookupCallerRetries = (none, []) :=
  ⟨(request_with_retry_behavior _ 10 3 7 500).1
      (fun j hj => by simp [hj]) (by decide) (by decide),
   (request_with_retry_behavior (fun _ => .otherStatus 500) 5 0 0 500).2.2.1
      rfl (by decide)⟩

/- ### Cache lemmas (claims C1 and C9) -/

/-- A query whose key is already cached is answered from the cache: same
record, unchanged cache, zero fetcher invocations. -/
theorem getRelations_hit (fetcher : RelQuery → List Entry) (c : Cache)
    (q : RelQuery) (v : RelRecord)
    (h : List.lookup (cacheKeyOf q) c = some v) :
    getRelations fetcher c q = (v, c, 0) := by
  unfold getRelations
  rw [h]

/-- After any call, the query's key maps to the record the call returned. -/
theorem getRelations_stores (fetcher : RelQuery → List Entry) (c : Cache)
    (q : RelQuery) :
    List.lookup (cacheKeyOf q) (getRelations fetcher c q).2.1 =
      some (getRelations fetcher c q).1 := by
  unfold getRelations
  rcases h : List.lookup (cacheKeyOf q) c with _ | v
  · simp [List.lookup]
  · simpa using h

/-- A call never removes or overwrites an existing cache entry. -/
theorem getRelations_preserves (fetcher : RelQuery → List Entry) (c : Cache)
    (q : RelQuery) (k : CacheKey) (v : RelRecord)
    (h : List.lookup k c = some v) :
    List.lookup k (getRelations fetcher c q).2.1 = some v := by
  unfold getRelations
  rcases hq : List.lookup (cacheKeyOf q) c with _ | w
  · have hne : (k == cacheKeyOf q) = false := by
      refine beq_eq_false_iff_ne.mpr fun he => ?_
      rw [he, hq] at h
      exact Option.noConfusion h
    simpa [List.lookup, hne] using h
  · simpa using h

/-- One output per call. -/
theorem runCalls_length (fetcher : RelQuery → List Entry) :
    ∀ (qs : List RelQuery) (c : Cache),
      (runCalls fetcher c qs).1.length = qs.length
  | [], _ => rfl
  | _ :: qs, c => by
    simp only [runCalls]
    simp [runCalls_length fetcher qs]

/-- Any later call whose key is in the cache at the start of the call
sequence is answered with the cached record and zero fetcher invocations. -/
theorem runCalls_cached (fetcher : RelQuery → List Entry) :
    ∀ (qs : List RelQuery) (c : Cache) (q : RelQuery) (v : RelRecord),
      List.lookup (cacheKeyOf q) c = some v →
      ∀ (j : Nat) (hj : j < qs.length), qs.get ⟨j, hj⟩ = q →
      ∀ hj2 : j < (runCalls fetcher c qs).1.length,
        (runCalls fetcher c qs).1.get ⟨j, hj2⟩ = (v, 0)
  | [], _, _, _, _, j, hj, _, _ => absurd hj (by simp)
  | q0 :: qs, c, q, v, hv, 0, _, hq, hj2 => by
    have hq0 : q0 = q := hq
    subst hq0
    simp only [runCalls]
    simp [getRelations_hit fetcher c q0 v hv]
  | q0 :: qs, c, q, v, hv, j + 1, hj, hq, hj2 => by
    simp only [runCalls]
    simp only [List.get_cons_succ]
    exact runCalls_cached fetcher qs _ q v
      (getRelations_preserves fetcher c q0 _ v hv) j
      (by simpa using hj) (by simpa using hq) _

/-- Core of C1: in any call sequence starting from any cache, a call whose
query tuple equals that of an earlier call returns the earlier call's record
with zero fetcher invocations. -/
theorem runCalls_repeat (fetcher : RelQuery → List Entry) :
    ∀ (qs : List RelQuery) (c : Cache) (i j : Nat) (hi : i < qs.length)
      (hj : j < qs.length), i < j → qs.get ⟨i, hi⟩ = qs.get ⟨j, hj⟩ →
      ∀ (hi2 : i < (runCalls fetcher c qs).1.length)
        (hj2 : j < (runCalls fetcher c qs).1.length),
        (runCalls fetcher c qs).1.get ⟨j, hj2⟩ =
          (((runCalls fetcher c qs).1.get ⟨i, hi2⟩).1, 0)
  | [], _, i, _, hi, _, _, _, _, _ => absurd hi (by simp)
  | q0 :: qs, c, 0, 0, _, _, hij, _, _, _ => absurd hij (by omega)
  | q0 :: qs, c, 0, j + 1, hi, hj, _, heq, hi2, hj2 => by
    have hstore := getRelations_stores fetcher c q0
    have hqj : qs.get ⟨j, by simpa using hj⟩ = q0 := by
      have := heq.symm
      simpa using this
    simp only [runCalls]
    simp only [List.get_cons_succ, List.get_cons_zero]
    exact runCalls_cached fetcher qs _ q0 _ hstore j _ hqj _
  | q0 :: qs, c, i + 1, j + 1, hi, hj, hij, heq, hi2, hj2 => by
    simp only [runCalls]
    simp only [List.get_cons_succ]
    exact runCalls_repeat fetcher qs _ i j (by simpa using hi) (by simpa using hj)
      (by omega) (by simpa using heq) _ _

/- ### Claim C1 — memoized relation lookups -/

/-- C1: in any sequence of `_get_relations` calls on a fresh builder, a call
whose query tuple is identical to an earlier call's invokes the fetcher zero
times (zero network requests) and returns a record equal to the earlier
call's. -/
theorem cache_repeat_query_no_refetch (fetcher : RelQuery → List Entry)
    (qs : List RelQuery) (i j : Nat) (hi : i < qs.length) (hj : j < qs.length)
    (hij : i < j) (heq : qs.get ⟨i, hi⟩ = qs.get ⟨j, hj⟩)
    (hi2 : i < (runCalls fetcher [] qs).1.length)
    (hj2 : j < (runCalls fetcher [] qs).1.length) :
    ((runCalls fetcher [] qs).1.get ⟨j, hj2⟩).2 = 0 ∧
    ((runCalls fetcher [] qs).1.get ⟨j, hj2⟩).1 =
      ((runCalls fetcher [] qs).1.get ⟨i, hi2⟩).1 := by
  rw [runCalls_repeat fetcher qs [] i j hi hj hij heq hi2 hj2]
  exact ⟨rfl, rfl⟩

/-- Witness for C1: two identical queries; the second call reports zero
fetcher invocations and the first call's record. -/
theorem cache_repeat_query_no_refetch_witness :
    ((runCalls c9Fetcher [] [c9Query1, c9Query1]).1.get ⟨1, by decide⟩).2 = 0 ∧
    ((runCalls c9Fetcher [] [c9Query1, c9Query1]).1.get ⟨1, by decide⟩).1 =
      ((runCalls c9Fetcher [] [c9Query1, c9Query1]).1.get ⟨0, by decide⟩).1 :=
  cache_repeat_query_no_refetch c9Fetcher [c9Query1, c9Query1] 0 1
    (by decide) (by decide) (by decide) rfl (by decide) (by decide)

/- ### Claim C9 — the cache key has five components, not six -/

/-- Counterexample to C9: two queries identical in the five keyed components
but with fetch limits 10000 and 1, against a fetcher whose answer depends on
the fetch limit.  The second call invokes the fetcher zero times — it does
*not* trigger its own retrieval — and returns the first call's record, which
differs from what its own retrieval would have produced. -/
theorem cache_key_fetch_limit_counterexample :
    ((runCalls c9Fetcher [] [c9Query1, c9Query2]).1.get ⟨1, by decide⟩).2 = 0 ∧
    ((runCalls c9Fetcher [] [c9Query1, c9Query2]).1.get ⟨1, by decide⟩).1 =
      ((runCalls c9Fetcher [] [c9Query1, c9Query2]).1.get ⟨0, by decide⟩).1 ∧
    ((runCalls c9Fetcher [] [c9Query1, c9Query2]).1.get ⟨1, by decide⟩).1 ≠
      (c9Fetcher c9Query2).map fun it => (it.paper, it.isInfluential) := by
  refine ⟨by decide, by decide, by decide⟩

/-- C9 amended: the cache key distinguishes only five of the six query
components — publication id, relation type, influential-only flag, since-year,
until-year — and omits the fetch-limit ceiling; consequently any two queries
identical in those five components share one cache entry: after the first is
served, the second returns the first's record with zero fetcher invocations
and leaves the cache unchanged, whatever the two fetch limits are. -/
theorem cache_key_omits_fetch_limit (fetcher : RelQuery → List Entry)
    (c : Cache) (q1 q2 : RelQuery) (h : cacheKeyOf q1 = cacheKeyOf q2) :
    getRelations fetcher (getRelations fetcher c q1).2.1 q2 =
      ((getRelations fetcher c q1).1, (getRelations fetcher c q1).2.1, 0) := by
  have hs := getRelations_stores fetcher c q1
  rw [h] at hs
  exact getRelations_hit fetcher _ q2 _ hs

/-- Witness for C9 amended: the two concrete queries differing only in the
fetch limit; the second call is a pure cache hit. -/
theorem cache_key_omits_fetch_limit_witness :
    getRelations c9Fetcher (getRelations c9Fetcher [] c9Query1).2.1 c9Query2 =
      ((getRelations c9Fetcher [] c9Query1).1,
       (getRelations c9Fetcher [] c9Query1).2.1, 0) :=
  cache_key_omits_fetch_limit c9Fetcher [] c9Query1 c9Query2 rfl

/- ### Claim C8 — pagination, partial results, and the fetch-limit cap
(corrected: the record is not truncated to the ceiling) -/

/-- Accumulated length stays below `fetchLimit + pageSize - 1`... helper for
the amended C8: provided every page holds at most `pageSize` entries, the
pagination loop's result respects the bound `fetchLimit + (pageSize - 1)`. -/
theorem fetchPagesAux_length_le (pages : Nat → Option (List Entry))
    (fetchLimit : Nat)
    (hp : ∀ j bj, pages j = some bj → bj.length ≤ pageSize) :
    ∀ (fuel k : Nat) (acc : List Entry),
      acc.length ≤ fetchLimit + (pageSize - 1) →
      (fetchPagesAux pages fetchLimit fuel k acc).length ≤
        fetchLimit + (pageSize - 1)
  | 0, _, _, ha => ha
  | fuel + 1, k, acc, ha => by
    have hps : pageSize = 1000 := rfl
    unfold fetchPagesAux
    by_cases hlt : acc.length < fetchLimit
    · rw [if_pos hlt]
      rcases hpk : pages k with _ | bk
      · exact ha
      · have hble : bk.length ≤ pageSize := hp k bk hpk
        rcases bk with _ | ⟨x, xs⟩
        · exact ha
        · show (if (x :: xs).length < pageSize then acc ++ x :: xs
                else fetchPagesAux pages fetchLimit fuel (k + 1) (acc ++ x :: xs)).length ≤
              fetchLimit + (pageSize - 1)
          by_cases hshort : (x :: xs).length < pageSize
          · rw [if_pos hshort]
            simp only [List.length_append, List.length_cons, hps] at hble ha ⊢
            omega
          · rw [if_neg hshort]
            refine fetchPagesAux_length_le pages fetchLimit hp fuel (k + 1)
              (acc ++ x :: xs) ?_
            simp only [List.length_append, List.length_cons, hps] at hble ha ⊢
            omega
    · rw [if_neg hlt]
      exact ha

/-- C8 amended: the pagination loop stops when the accumulated count has
reached `fetchLimit` (checked before each page request), when a page request
fails (the entries accumulated so far become the partial result, not an
error), or after a batch shorter than the page size 1000 — which is appended
untruncated, so the resulting record (filtered, sorted, and not truncated by
the graph caller's absent `num_results`) can exceed `fetchLimit`, but holds at
most `fetchLimit + 999` entries whenever every page holds at most 1000. -/
theorem fetch_relations_pagination_amended
    (pages : Nat → Option (List Entry)) (sortBy : String) (io : Bool)
    (sy uy : Option Int) (nr : Option Nat) (fetchLimit fuel k : Nat)
    (acc b : List Entry) :
    (fetchLimit ≤ acc.length → fetchPagesAux pages fetchLimit fuel k acc = acc) ∧
    (pages k = none → fetchPagesAux pages fetchLimit (fuel + 1) k acc = acc) ∧
    (pages k = some b → b.length < pageSize → acc.length < fetchLimit →
      fetchPagesAux pages fetchLimit (fuel + 1) k acc = acc ++ b) ∧
    ((∀ j bj, pages j = some bj → bj.length ≤ pageSize) →
      (fetchRelations pages sortBy io sy uy nr fetchLimit).length ≤
        fetchLimit + (pageSize - 1)) := by
  refine ⟨?_, ?_, ?_, ?_⟩
  · intro hge
    cases fuel with
    | zero => rfl
    | succ fuel => simp [fetchPagesAux, Nat.not_lt_of_ge hge]
  · intro hk
    by_cases hlt : acc.length < fetchLimit
    · simp [fetchPagesAux, hlt, hk]
    · simp [fetchPagesAux, hlt]
  · intro hk hshort hlt
    unfold fetchPagesAux
    rw [if_pos hlt, hk]
    rcases b with _ | ⟨x, xs⟩
    · simp
    · show (if (x :: xs).length < pageSize then acc ++ x :: xs
            else fetchPagesAux pages fetchLimit fuel (k + 1) (acc ++ x :: xs)) =
          acc ++ x :: xs
      rw [if_pos hshort]
  · intro hp
    have hraw : (fetchPagesAux pages fetchLimit (fetchLimit + 1) 0 []).length ≤
        fetchLimit + (pageSize - 1) :=
      fetchPagesAux_length_le pages fetchLimit hp (fetchLimit + 1) 0 []
        (by simp)
    have hfil : ((fetchPagesAux pages fetchLimit (fetchLimit + 1) 0 []).filter
        (passesFilter io sy uy)).length ≤ fetchLimit + (pageSize - 1) :=
      le_trans (List.length_filter_le _ _) hraw
    have hsort : (sortPapers ((fetchPagesAux pages fetchLimit (fetchLimit + 1) 0 []).filter
        (passesFilter io sy uy)) sortBy).length ≤ fetchLimit + (pageSize - 1) := by
      unfold sortPapers
      rw [(stableSort_perm _ _).length_eq]
      exact hfil
    unfold fetchRelations
    cases nr with
    | none => exact hsort
    | some n =>
      refine le_trans ?_ hsort
      simp [List.length_take]

/-- Witness for C8 amended at concrete inputs: a single short page stops the
loop with the batch appended, and the final record respects the
`fetchLimit + 999` bound. -/
theorem fetch_relations_pagination_amended_witness :
    fetchPagesAux c8PagesW 10 1 0 [] = [] ++ [⟨false, none⟩] ∧
    (fetchRelations c8PagesW "citation" false none none none 10).length ≤
      10 + (pageSize - 1) :=
  ⟨(fetch_relations_pagination_amended c8PagesW "citation" false none none none
      10 0 0 [] [⟨false, none⟩]).2.2.1 rfl (by decide) (by decide),
   (fetch_relations_pagination_amended c8PagesW "citation" false none none none
      10 0 0 [] []).2.2.2
     (fun j bj h => by
       cases j with
       | zero =>
         have h2 : bj = [(⟨false, none⟩ : Entry)] := by
           simpa [c8PagesW] using h.symm
         rw [h2]
         decide
       | succ j => simp [c8PagesW] at h)⟩

/-- Counterexample to C8 as stated: with `fetch_limit = 1` and a first page
holding two entries, the resulting record (no filters, graph caller's absent
`num_results`) holds 2 entries — more than the fetch-limit ceiling, because
the ceiling is checked before the request and the batch is never truncated. -/
theorem fetch_relations_cap_counterexample :
    1 < (fetchRelations
      (fun k => if k = 0 then some
        [⟨false, some ⟨some "a", none, none, some 5⟩⟩,
         ⟨false, some ⟨some "b", none, none, some 9⟩⟩] else none)
      "citation" false none none none 1).length := by
  decide

/- ### Claim C10 — seed-details failure path -/

/-- C10: when the seed is resolved by search but the follow-up request for the
seed's own details fails, `build` returns with the state untouched — no node,
edge, or visited id — and `save` then reports the empty graph and writes
nothing. -/
theorem build_seed_details_failure (rootId : String) (oracle : RelOracle)
    (mode : String) (dmax : Nat) (widths : List Nat) (fuel : Nat) :
    build (some rootId) none oracle mode dmax widths fuel = emptyState ∧
    (build (some rootId) none oracle mode dmax widths fuel).graph.nodes = [] ∧
    (build (some rootId) none oracle mode dmax widths fuel).graph.edges = [] ∧
    (build (some rootId) none oracle mode dmax widths fuel).visited = [] ∧
    saveOutput (build (some rootId) none oracle mode dmax widths fuel).graph = none :=
  ⟨rfl, rfl, rfl, rfl, rfl⟩

/- ### Graph-operation lemmas (claims C2, C3, C4) -/

theorem hasNode_iff (g : Graph) (pid : String) :
    g.hasNode pid = true ↔ pid ∈ g.nodeIds := by
  unfold Graph.hasNode
  exact List.elem_iff

theorem hasEdge_iff (g : Graph) (s t : String) :
    g.hasEdge s t = true ↔ (s, t) ∈ g.edgePairs := by
  unfold Graph.hasEdge
  exact List.elem_iff

theorem addNode_edges (g : Graph) (info : Option Paper) (l : Nat) :
    (addNode g info l).edges = g.edges := by
  rcases info with _ | ⟨pid, pt, py, pc⟩
  · rfl
  · rcases pid with _ | pid
    · rfl
    · show ((if pid = "" then g
             else if g.hasNode pid = true then g
             else { nodes := g.nodes ++ [(pid, l)], edges := g.edges } : Graph)).edges =
        g.edges
      split_ifs <;> rfl

/-- `add_node` either leaves the node list alone or appends one fresh node at
the requested layer. -/
theorem addNode_nodes_cases (g : Graph) (info : Option Paper) (l : Nat) :
    (addNode g info l).nodes = g.nodes ∨
    ∃ pid, (addNode g info l).nodes = g.nodes ++ [(pid, l)] ∧
      g.hasNode pid = false := by
  rcases info with _ | ⟨pid, pt, py, pc⟩
  · exact Or.inl rfl
  · rcases pid with _ | pid
    · exact Or.inl rfl
    · unfold addNode
      dsimp only
      split_ifs with h1 h2
      · exact Or.inl rfl
      · exact Or.inl rfl
      · exact Or.inr ⟨pid, rfl, Bool.eq_false_iff.mpr h2⟩

theorem addEdge_nodes (g : Graph) (s t : String) (b : Bool) :
    (addEdge g s t b).nodes = g.nodes := by
  unfold addEdge
  split_ifs <;> rfl

/-- `_add_edge` either leaves the edge list alone or appends the requested
edge, and then only when both endpoints are nodes and the ordered pair is
new. -/
theorem addEdge_edges_cases (g : Graph) (s t : String) (b : Bool) :
    (addEdge g s t b).edges = g.edges ∨
    ((addEdge g s t b).edges = g.edges ++ [(s, t, b)] ∧
      g.hasNode s = true ∧ g.hasNode t = true ∧ g.hasEdge s t = false) := by
  unfold addEdge
  split_ifs with h1 h2
  · exact Or.inl rfl
  · exact Or.inl rfl
  · have hs : g.hasNode s = true ∧ g.hasNode t = true := by
      cases hns : g.hasNode s <;> cases hnt : g.hasNode t <;>
        simp [hns, hnt] at h1 ⊢
    exact Or.inr ⟨rfl, hs.1, hs.2, Bool.eq_false_iff.mpr h2⟩

theorem emptyGraph_WF : emptyGraph.WF := by
  refine ⟨List.nodup_nil, List.nodup_nil, ?_⟩
  intro e he
  exact absurd he (List.not_mem_nil e)

theorem addNode_WF (g : Graph) (info : Option Paper) (l : Nat) (h : g.WF) :
    (addNode g info l).WF := by
  obtain ⟨hn, hp, he⟩ := h
  have hedges := addNode_edges g info l
  have hpairs : (addNode g info l).edgePairs = g.edgePairs := by
    unfold Graph.edgePairs
    rw [hedges]
  rcases addNode_nodes_cases g info l with hnn | ⟨pid, hnn, hfresh⟩
  · have hids : (addNode g info l).nodeIds = g.nodeIds := by
      unfold Graph.nodeIds
      rw [hnn]
    refine ⟨?_, ?_, ?_⟩
    · rw [hids]; exact hn
    · rw [hpairs]; exact hp
    · intro e he2
      rw [hids]
      rw [hedges] at he2
      exact he e he2
  · have hids : (addNode g info l).nodeIds = g.nodeIds ++ [pid] := by
      unfold Graph.nodeIds
      rw [hnn]
      simp
    have hnotmem : pid ∉ g.nodeIds := fun hm =>
      absurd ((hasNode_iff g pid).mpr hm) (by simp [hfresh])
    refine ⟨?_, ?_, ?_⟩
    · rw [hids, List.nodup_append]
      exact ⟨hn, List.nodup_singleton pid,
        List.disjoint_singleton.mpr hnotmem⟩
    · rw [hpairs]; exact hp
    · intro e he2
      rw [hids]
      rw [hedges] at he2
      exact ⟨List.mem_append_left _ (he e he2).1,
        List.mem_append_left _ (he e he2).2⟩

theorem addEdge_WF (g : Graph) (s t : String) (b : Bool) (h : g.WF) :
    (addEdge g s t b).WF := by
  obtain ⟨hn, hp, he⟩ := h
  have hnodes := addEdge_nodes g s t b
  have hids : (addEdge g s t b).nodeIds = g.nodeIds := by
    unfold Graph.nodeIds
    rw [hnodes]
  rcases addEdge_edges_cases g s t b with hee | ⟨hee, hns, hnt, hfresh⟩
  · have hpairs : (addEdge g s t b).edgePairs = g.edgePairs := by
      unfold Graph.edgePairs
      rw [hee]
    refine ⟨?_, ?_, ?_⟩
    · rw [hids]; exact hn
    · rw [hpairs]; exact hp
    · intro e he2
      rw [hids]
      rw [hee] at he2
      exact he e he2
  · have hpairs : (addEdge g s t b).edgePairs = g.edgePairs ++ [(s, t)] := by
      unfold Graph.edgePairs
      rw [hee]
      simp
    have hnotmem : (s, t) ∉ g.edgePairs := fun hm =>
      absurd ((hasEdge_iff g s t).mpr hm) (by simp [hfresh])
    refine ⟨?_, ?_, ?_⟩
    · rw [hids]; exact hn
    · rw [hpairs, List.nodup_append]
      exact ⟨hp, List.nodup_singleton _, List.disjoint_singleton.mpr hnotmem⟩
    · intro e he2
      rw [hids]
      rw [hee] at he2
      rcases List.mem_append.mp he2 with he3 | he3
      · exact he e he3
      · rcases List.mem_singleton.mp he3 with rfl
        exact ⟨(hasNode_iff g s).mp hns, (hasNode_iff g t).mp hnt⟩

/-- The graph after one inner-loop iteration of the BFS: unchanged, or an
`add_node` at layer `d + 1` followed by an `_add_edge` in the direction-given
orientation. -/
theorem processItem_graph_eq (dmax : Nat) (m cur : String) (d : Nat)
    (st : BuildState) (item : Option Paper × Bool) :
    (processItem dmax m cur d st item).graph = st.graph ∨
    ∃ p s t, (processItem dmax m cur d st item).graph =
      addEdge (addNode st.graph (some p) (d + 1)) s t item.2 := by
  rcases item with ⟨info, b⟩
  rcases info with _ | ⟨pid, pt, py, pc⟩
  · exact Or.inl rfl
  · rcases pid with _ | tid
    · exact Or.inl rfl
    · unfold processItem
      dsimp only
      split_ifs <;>
        first
          | exact Or.inl rfl
          | exact Or.inr ⟨⟨some tid, pt, py, pc⟩, cur, tid, rfl⟩
          | exact Or.inr ⟨⟨some tid, pt, py, pc⟩, tid, cur, rfl⟩

theorem processItem_WF (dmax : Nat) (m cur : String) (d : Nat)
    (st : BuildState) (item : Option Paper × Bool) (h : st.graph.WF) :
    (processItem dmax m cur d st item).graph.WF := by
  rcases processItem_graph_eq dmax m cur d st item with hg | ⟨p, s, t, hg⟩
  · rw [hg]; exact h
  · rw [hg]
    exact addEdge_WF _ s t item.2 (addNode_WF _ (some p) (d + 1) h)

theorem processItem_nodesExt (dmax : Nat) (m cur : String) (d : Nat)
    (st : BuildState) (item : Option Paper × Bool) :
    nodesExt st.graph (processItem dmax m cur d st item).graph := by
  rcases processItem_graph_eq dmax m cur d st item with hg | ⟨p, s, t, hg⟩
  · exact ⟨[], by rw [hg]; simp⟩
  · rw [hg, nodesExt]
    rw [addEdge_nodes]
    rcases addNode_nodes_cases st.graph (some p) (d + 1) with hnn | ⟨pid, hnn, _⟩
    · exact ⟨[], by rw [hnn]; simp⟩
    · exact ⟨[(pid, d + 1)], hnn⟩

theorem processItem_layers (dmax : Nat) (m cur : String) (d : Nat)
    (st : BuildState) (item : Option Paper × Bool) (hd : d + 1 ≤ dmax)
    (h : ∀ x ∈ st.graph.nodes, x.2 ≤ dmax) :
    ∀ x ∈ (processItem dmax m cur d st item).graph.nodes, x.2 ≤ dmax := by
  rcases processItem_graph_eq dmax m cur d st item with hg | ⟨p, s, t, hg⟩
  · rw [hg]; exact h
  · rw [hg, addEdge_nodes]
    rcases addNode_nodes_cases st.graph (some p) (d + 1) with hnn | ⟨pid, hnn, _⟩
    · rw [hnn]; exact h
    · rw [hnn]
      intro x hx
      rcases List.mem_append.mp hx with hx | hx
      · exact h x hx
      · rcases List.mem_singleton.mp hx with rfl
        exact hd

theorem nodesExt_refl (g : Graph) : nodesExt g g := ⟨[], by simp⟩

theorem nodesExt_trans (a b c : Graph) (h1 : nodesExt a b) (h2 : nodesExt b c) :
    nodesExt a c := by
  obtain ⟨t1, e1⟩ := h1
  obtain ⟨t2, e2⟩ := h2
  exact ⟨t1 ++ t2, by rw [e2, e1, List.append_assoc]⟩

theorem expandDirection_WF (oracle : RelOracle) (dmax : Nat) (widths : List Nat)
    (cur : String) (d : Nat) (st : BuildState) (m : String) (h : st.graph.WF) :
    (expandDirection oracle dmax widths cur d st m).graph.WF := by
  unfold expandDirection
  exact foldl_preserve _ (fun b a hb => processItem_WF dmax m cur d b a hb) _ st h

theorem expandDirection_nodesExt (oracle : RelOracle) (dmax : Nat)
    (widths : List Nat) (cur : String) (d : Nat) (st : BuildState) (m : String) :
    nodesExt st.graph (expandDirection oracle dmax widths cur d st m).graph := by
  unfold expandDirection
  exact foldl_rel (fun s s' => nodesExt s.graph s'.graph)
    (fun s => nodesExt_refl s.graph)
    (fun a b c h1 h2 => nodesExt_trans a.graph b.graph c.graph h1 h2)
    _ (fun b a => processItem_nodesExt dmax m cur d b a) _ st

theorem expandDirection_layers (oracle : RelOracle) (dmax : Nat)
    (widths : List Nat) (cur : String) (d : Nat) (st : BuildState) (m : String)
    (hd : d + 1 ≤ dmax) (h : ∀ x ∈ st.graph.nodes, x.2 ≤ dmax) :
    ∀ x ∈ (expandDirection oracle dmax widths cur d st m).graph.nodes,
      x.2 ≤ dmax := by
  unfold expandDirection
  exact foldl_preserve _ (fun b a hb => processItem_layers dmax m cur d b a hd hb)
    _ st h

theorem processNode_WF (oracle : RelOracle) (mode : String) (dmax : Nat)
    (widths : List Nat) (st : BuildState) (cur : String) (d : Nat)
    (h : st.graph.WF) :
    (processNode oracle mode dmax widths st cur d).graph.WF := by
  unfold processNode
  exact foldl_preserve _
    (fun b a hb => expandDirection_WF oracle dmax widths cur d b a hb) _ st h

theorem processNode_nodesExt (oracle : RelOracle) (mode : String) (dmax : Nat)
    (widths : List Nat) (st : BuildState) (cur : String) (d : Nat) :
    nodesExt st.graph (processNode oracle mode dmax widths st cur d).graph := by
  unfold processNode
  exact foldl_rel (fun s s' => nodesExt s.graph s'.graph)
    (fun s => nodesExt_refl s.graph)
    (fun a b c h1 h2 => nodesExt_trans a.graph b.graph c.graph h1 h2)
    _ (fun b a => expandDirection_nodesExt oracle dmax widths cur d b a) _ st

theorem processNode_layers (oracle : RelOracle) (mode : String) (dmax : Nat)
    (widths : List Nat) (st : BuildState) (cur : String) (d : Nat)
    (hd : d + 1 ≤ dmax) (h : ∀ x ∈ st.graph.nodes, x.2 ≤ dmax) :
    ∀ x ∈ (processNode oracle mode dmax widths st cur d).graph.nodes,
      x.2 ≤ dmax := by
  unfold processNode
  exact foldl_preserve _
    (fun b a hb => expandDirection_layers oracle dmax widths cur d b a hd hb)
    _ st h

theorem bfsStep_WF (oracle : RelOracle) (mode : String) (dmax : Nat)
    (widths : List Nat) (st : BuildState) (h : st.graph.WF) :
    (bfsStep oracle mode dmax widths st).graph.WF := by
  rcases st with ⟨g, vis, queue⟩
  rcases queue with _ | ⟨⟨cur, dq⟩, rest⟩
  · exact h
  · show ((if dmax ≤ dq then (⟨g, vis, rest⟩ : BuildState)
           else processNode oracle mode dmax widths ⟨g, vis, rest⟩ cur dq)).graph.WF
    split_ifs
    · exact h
    · exact processNode_WF oracle mode dmax widths ⟨g, vis, rest⟩ cur dq h

theorem bfsStep_nodesExt (oracle : RelOracle) (mode : String) (dmax : Nat)
    (widths : List Nat) (st : BuildState) :
    nodesExt st.graph (bfsStep oracle mode dmax widths st).graph := by
  rcases st with ⟨g, vis, queue⟩
  rcases queue with _ | ⟨⟨cur, dq⟩, rest⟩
  · exact nodesExt_refl g
  · show nodesExt g ((if dmax ≤ dq then (⟨g, vis, rest⟩ : BuildState)
           else processNode oracle mode dmax widths ⟨g, vis, rest⟩ cur dq)).graph
    split_ifs
    · exact nodesExt_refl g
    · exact processNode_nodesExt oracle mode dmax widths ⟨g, vis, rest⟩ cur dq

theorem bfsStep_layers (oracle : RelOracle) (mode : String) (dmax : Nat)
    (widths : List Nat) (st : BuildState)
    (h : ∀ x ∈ st.graph.nodes, x.2 ≤ dmax) :
    ∀ x ∈ (bfsStep oracle mode dmax widths st).graph.nodes, x.2 ≤ dmax := by
  rcases st with ⟨g, vis, queue⟩
  rcases queue with _ | ⟨⟨cur, dq⟩, rest⟩
  · exact h
  · show ∀ x ∈ ((if dmax ≤ dq then (⟨g, vis, rest⟩ : BuildState)
           else processNode oracle mode dmax widths ⟨g, vis, rest⟩ cur dq)).graph.nodes,
      x.2 ≤ dmax
    split_ifs with hdq
    · exact h
    · exact processNode_layers oracle mode dmax widths ⟨g, vis, rest⟩ cur dq
        (by omega) h

theorem bfsRun_WF (oracle : RelOracle) (mode : String) (dmax : Nat)
    (widths : List Nat) :
    ∀ (fuel : Nat) (st : BuildState), st.graph.WF →
      (bfsRun oracle mode dmax widths fuel st).graph.WF
  | 0, _, h => h
  | fuel + 1, st, h => by
    rcases st with ⟨g, vis, queue⟩
    rcases queue with _ | ⟨q0, rest⟩
    · exact h
    · exact bfsRun_WF oracle mode dmax widths fuel _
        (bfsStep_WF oracle mode dmax widths ⟨g, vis, q0 :: rest⟩ h)

theorem bfsRun_nodesExt (oracle : RelOracle) (mode : String) (dmax : Nat)
    (widths : List Nat) :
    ∀ (fuel : Nat) (st : BuildState),
      nodesExt st.graph (bfsRun oracle mode dmax widths fuel st).graph
  | 0, st => nodesExt_refl st.graph
  | fuel + 1, st => by
    rcases st with ⟨g, vis, queue⟩
    rcases queue with _ | ⟨q0, rest⟩
    · exact nodesExt_refl g
    · exact nodesExt_trans _ _ _
        (bfsStep_nodesExt oracle mode dmax widths ⟨g, vis, q0 :: rest⟩)
        (bfsRun_nodesExt oracle mode dmax widths fuel _)

theorem bfsRun_layers (oracle : RelOracle) (mode : String) (dmax : Nat)
    (widths : List Nat) :
    ∀ (fuel : Nat) (st : BuildState),
      (∀ x ∈ st.graph.nodes, x.2 ≤ dmax) →
      ∀ x ∈ (bfsRun oracle mode dmax widths fuel st).graph.nodes, x.2 ≤ dmax
  | 0, _, h => h
  | fuel + 1, st, h => by
    rcases st with ⟨g, vis, queue⟩
    rcases queue with _ | ⟨q0, rest⟩
    · exact h
    · exact bfsRun_layers oracle mode dmax widths fuel _
        (bfsStep_layers oracle mode dmax widths ⟨g, vis, q0 :: rest⟩ h)

/- ### Densification lemmas -/

theorem addEdge_densifyExt (g h : Graph) (s t : String) (b : Bool)
    (hext : densifyExt g h) : densifyExt g (addEdge h s t b) := by
  obtain ⟨hn, t0, he, hprops, hnd⟩ := hext
  have hids : h.nodeIds = g.nodeIds := by
    unfold Graph.nodeIds
    rw [hn]
  have hpairs : h.edgePairs = g.edgePairs ++ t0.map fun e => (e.1, e.2.1) := by
    unfold Graph.edgePairs
    rw [he]
    simp
  rcases addEdge_edges_cases h s t b with hee | ⟨hee, hns, hnt, hfresh⟩
  · exact ⟨by rw [addEdge_nodes]; exact hn, t0, by rw [hee]; exact he, hprops, hnd⟩
  · refine ⟨by rw [addEdge_nodes]; exact hn, t0 ++ [(s, t, b)], ?_, ?_, ?_⟩
    · rw [hee, he, List.append_assoc]
    · intro e hme
      rcases List.mem_append.mp hme with hme | hme
      · exact hprops e hme
      · rcases List.mem_singleton.mp hme with rfl
        refine ⟨?_, ?_, ?_⟩
        · have := (hasNode_iff h s).mp hns
          rwa [hids] at this
        · have := (hasNode_iff h t).mp hnt
          rwa [hids] at this
        · intro hmem
          have hm2 : (s, t) ∈ h.edgePairs := by
            rw [hpairs]
            exact List.mem_append_left _ hmem
          exact absurd ((hasEdge_iff h s t).mpr hm2) (by simp [hfresh])
    · rw [List.map_append, List.nodup_append]
      refine ⟨hnd, by simp, ?_⟩
      simp only [List.map_cons, List.map_nil]
      rw [List.disjoint_singleton]
      intro hmem
      have hm2 : (s, t) ∈ h.edgePairs := by
        rw [hpairs]
        exact List.mem_append_right _ hmem
      exact absurd ((hasEdge_iff h s t).mpr hm2) (by simp [hfresh])

theorem densifyNode_ext (oracle : RelOracle) (ids : List String) (g : Graph)
    (pid : String) (h : Graph) (hext : densifyExt g h) :
    densifyExt g (densifyNode oracle ids h pid) := by
  unfold densifyNode
  refine foldl_preserve (P := densifyExt g) _ ?_ _ h hext
  intro b a hb
  rcases a with ⟨info, binf⟩
  rcases info with _ | ⟨pid0, pt, py, pc⟩
  · exact hb
  · rcases pid0 with _ | rid
    · exact hb
    · show densifyExt g (if ids.contains rid = true then addEdge b pid rid binf else b)
      split_ifs
      · exact addEdge_densifyExt g b pid rid binf hb
      · exact hb

theorem densifyExt_refl (g : Graph) : densifyExt g g :=
  ⟨rfl, [], by simp, by simp, List.nodup_nil⟩

theorem densify_ext (oracle : RelOracle) (g : Graph) :
    densifyExt g (densify oracle g) := by
  unfold densify
  exact foldl_preserve (P := densifyExt g) _
    (fun b a hb => densifyNode_ext oracle g.nodeIds g a b hb) _ g (densifyExt_refl g)

theorem densify_nodes (oracle : RelOracle) (g : Graph) :
    (densify oracle g).nodes = g.nodes :=
  (densify_ext oracle g).1

theorem densify_WF (oracle : RelOracle) (g : Graph) (h : g.WF) :
    (densify oracle g).WF := by
  obtain ⟨hn, t0, he, hprops, hnd⟩ := densify_ext oracle g
  obtain ⟨wn, wp, we⟩ := h
  have hids : (densify oracle g).nodeIds = g.nodeIds := by
    unfold Graph.nodeIds
    rw [hn]
  have hpairs : (densify oracle g).edgePairs =
      g.edgePairs ++ t0.map fun e => (e.1, e.2.1) := by
    unfold Graph.edgePairs
    rw [he]
    simp
  refine ⟨?_, ?_, ?_⟩
  · rw [hids]; exact wn
  · rw [hpairs, List.nodup_append]
    refine ⟨wp, hnd, ?_⟩
    intro pr hpr hpr2
    rcases List.mem_map.mp hpr2 with ⟨e, hme, rfl⟩
    exact (hprops e hme).2.2 hpr
  · intro e he2
    rw [hids]
    rw [he] at he2
    rcases List.mem_append.mp he2 with he3 | he3
    · exact we e he3
    · exact ⟨(hprops e he3).1, (hprops e he3).2.1⟩

/- ### Claim C2 — the build produces a simple directed graph -/

/-- C2: for every completed build — any seed-resolution outcome, any
seed-details outcome, any cached relation lists, any mode, depth, widths, and
any number of BFS iterations — the resulting graph is a directed simple
graph: no two nodes share a publication id, no two edges share an ordered
(source, target) pair, and every edge's endpoints are present as nodes (they
were present when the edge was inserted, and nodes are never removed). -/
theorem build_simple_directed_graph (search : Option String)
    (rootData : Option Paper) (oracle : RelOracle) (mode : String) (dmax : Nat)
    (widths : List Nat) (fuel : Nat) :
    ((build search rootData oracle mode dmax widths fuel).graph).WF := by
  rcases search with _ | rid
  · exact emptyGraph_WF
  · rcases rootData with _ | rd
    · exact emptyGraph_WF
    · exact densify_WF oracle _
        (bfsRun_WF oracle mode dmax widths fuel _
          (addNode_WF emptyGraph (some rd) 0 emptyGraph_WF))

/- ### Claim C3 — layers bounded by the configured depth -/

/-- C3: every node in the final graph has discovery layer at most the
configured maximum depth `dmax`; the BFS only ever appends to the node list
(so a node's layer, assigned at first discovery, is never overwritten); and
when the seed's details carry a usable id, the seed node sits first in the
node list at layer 0. -/
theorem build_layers_bounded (search : Option String) (rootData : Option Paper)
    (oracle : RelOracle) (mode : String) (dmax : Nat) (widths : List Nat)
    (fuel : Nat) (rid : String) (rd : Paper) (pid : String) :
    (∀ x ∈ (build search rootData oracle mode dmax widths fuel).graph.nodes,
      x.2 ≤ dmax) ∧
    (∀ st : BuildState,
      nodesExt st.graph (bfsRun oracle mode dmax widths fuel st).graph) ∧
    (rd.paperId = some pid → pid ≠ "" →
      (build (some rid) (some rd) oracle mode dmax widths fuel).graph.nodes.head? =
        some (pid, 0)) := by
  refine ⟨?_, fun st => bfsRun_nodesExt oracle mode dmax widths fuel st, ?_⟩
  · rcases search with _ | rid2
    · intro x hx
      exact absurd hx (List.not_mem_nil x)
    · rcases rootData with _ | rd2
      · intro x hx
        exact absurd hx (List.not_mem_nil x)
      · show ∀ x ∈ (densify oracle (bfsRun oracle mode dmax widths fuel
          ⟨addNode emptyGraph (some rd2) 0, [rid2], [(rid2, 0)]⟩).graph).nodes, x.2 ≤ dmax
        rw [densify_nodes]
        refine bfsRun_layers oracle mode dmax widths fuel _ ?_
        intro x hx
        rcases addNode_nodes_cases emptyGraph (some rd2) 0 with hnn | ⟨p2, hnn, _⟩
        · rw [hnn] at hx
          exact absurd hx (List.not_mem_nil x)
        · rw [hnn] at hx
          rcases List.mem_singleton.mp (by simpa [emptyGraph] using hx) with rfl
          exact Nat.zero_le dmax
  · intro hpid hne
    have hg0 : (addNode emptyGraph (some rd) 0).nodes = [(pid, 0)] := by
      show ((match rd.paperId with
             | none => emptyGraph
             | some pid2 =>
               if pid2 = "" then emptyGraph
               else if emptyGraph.hasNode pid2 = true then emptyGraph
               else { nodes := emptyGraph.nodes ++ [(pid2, 0)],
                      edges := emptyGraph.edges } : Graph)).nodes = [(pid, 0)]
      rw [hpid]
      show ((if pid = "" then emptyGraph
             else if emptyGraph.hasNode pid = true then emptyGraph
             else { nodes := emptyGraph.nodes ++ [(pid, 0)],
                    edges := emptyGraph.edges } : Graph)).nodes = [(pid, 0)]
      rw [if_neg hne, if_neg (fun h => Bool.noConfusion h)]
      rfl
    show (densify oracle (bfsRun oracle mode dmax widths fuel
        ⟨addNode emptyGraph (some rd) 0, [rid], [(rid, 0)]⟩).graph).nodes.head? =
      some (pid, 0)
    rw [densify_nodes]
    obtain ⟨t, ht⟩ := bfsRun_nodesExt oracle mode dmax widths fuel
      ⟨addNode emptyGraph (some rd) 0, [rid], [(rid, 0)]⟩
    rw [ht]
    show ((addNode emptyGraph (some rd) 0).nodes ++ t).head? = some (pid, 0)
    rw [hg0]
    rfl

/-- Witness for C3: a concrete build (seed resolved, depth 2, empty relation
lists) in which the layer bound holds and the seed sits at layer 0. -/
theorem build_layers_bounded_witness :
    (∀ x ∈ (build (some "r") (some ⟨some "r", none, none, none⟩)
        (fun _ _ => []) "references" 2 [4, 2] 3).graph.nodes, x.2 ≤ 2) ∧
    (build (some "r") (some ⟨some "r", none, none, none⟩)
        (fun _ _ => []) "references" 2 [4, 2] 3).graph.nodes.head? =
      some ("r", 0) :=
  ⟨(build_layers_bounded (some "r") (some ⟨some "r", none, none, none⟩)
      (fun _ _ => []) "references" 2 [4, 2] 3 "r" ⟨some "r", none, none, none⟩ "r").1,
   (build_layers_bounded (some "r") (some ⟨some "r", none, none, none⟩)
      (fun _ _ => []) "references" 2 [4, 2] 3 "r" ⟨some "r", none, none, none⟩ "r").2.2
     rfl (by decide)⟩

/- ### Claim C4 — densification adds only internal edges, never nodes -/

/-- C4: the densification pass leaves the node list exactly as it was and only
appends edges, each of whose endpoints was already a node when the pass
started and whose ordered pair was not yet an edge (an edge already present
from BFS is skipped, not duplicated), with no pair appended twice. -/
theorem densification_frame (oracle : RelOracle) (g : Graph) :
    (densify oracle g).nodes = g.nodes ∧
    ∃ t, (densify oracle g).edges = g.edges ++ t ∧
      (∀ e ∈ t, e.1 ∈ g.nodeIds ∧ e.2.1 ∈ g.nodeIds ∧
        (e.1, e.2.1) ∉ g.edgePairs) ∧
      (t.map fun e => (e.1, e.2.1)).Nodup :=
  densify_ext oracle g

end Scholar
